import Mathlib

/-!
Shallow embedding of `src/luxtronik/aluxtronik.py` (class `ALuxtronik`),
the async session protocol engine for the Luxtronik heat-pump controller.

Modelling conventions:
* The incoming TCP byte stream (`self._reader`) is a `List Nat` of bytes;
  `none` models a cleared (`None`) reader handle.
* The writer handle (`self._writer`) is modelled by a `Bool` (present or
  cleared); outgoing frames and the other observable effects (the
  `asyncio.sleep` settle delay, `Parameters.parse`, `Calculations.parse`)
  are recorded in an event trace, in execution order.
* Python exceptions are modelled by an `Except` result carried next to the
  post-state (mutations performed before a raise persist, as in Python).
  `Err.incompleteRead` is `asyncio.IncompleteReadError` (raised by
  `reader.readexactly` on a short stream), `Err.structError` is
  `struct.error`, and `Err.notConnected` is the `AttributeError` raised
  when an operation is attempted on a `None` handle — the spec's
  `NotConnected` failure.
* `self.parameters.queue` (a Python dict iterated with `.items()`) is an
  association list in insertion order; dict keys and values may be
  arbitrary Python objects, modelled by `PyVal`.
-/

namespace ALuxtronik

/-- Python values that can sit in the parameter queue: an `int`, or any
non-`int` object (represented by a string tag); `isinstance(x, int)` is
the distinction the code tests. -/
inductive PyVal where
  | intV (v : Int)
  | strV (s : String)
deriving DecidableEq

/-- Exceptions that the embedded code can raise. -/
inductive Err where
  | incompleteRead
  | structError
  | notConnected
deriving DecidableEq

/-- Observable effects of a session, recorded in order. -/
inductive Event where
  | sent (ints : List Int)
  | sleep (secs : Nat)
  | parseParams (data : List Int)
  | parseCalcs (data : List Int)
deriving DecidableEq

/-- Session state: reader handle (incoming byte stream or `None`), writer
handle, the pending-write queue `self.parameters.queue`, and the trace of
observable effects so far. -/
@[ext]
structure St where
  reader : Option (List Nat)
  writer : Bool
  queue : List (PyVal × PyVal)
  trace : List Event
deriving DecidableEq

/-- Wait time (in seconds) after writing parameters. -/
def WAIT_TIME_AFTER_PARAMETER_WRITE : Nat := 1

/-- The signed 32-bit range accepted by `struct.pack(">i", v)`. -/
def wf32 (v : Int) : Prop := -2147483648 ≤ v ∧ v < 2147483648

instance : DecidablePred wf32 := fun v =>
  inferInstanceAs (Decidable (-2147483648 ≤ v ∧ v < 2147483648))

/-- The four big-endian bytes of `v`'s two's-complement 32-bit value. -/
def packBytes (v : Int) : List Nat :=
  let u := (v % 4294967296).toNat
  [u / 16777216 % 256, u / 65536 % 256, u / 256 % 256, u % 256]

/-- Models `struct.pack(">i", v)`: a 4-byte big-endian two's-complement
buffer, or `struct.error` when `v` is out of the signed 32-bit range. -/
def pack_i (v : Int) : Except Err (List Nat) :=
  if wf32 v then .ok (packBytes v) else .error .structError

/-- Models `struct.pack(">" + "i" * n, *ints)`: the concatenation of the
4-byte encodings, raising `struct.error` if any value is out of range. -/
def packInts : List Int → Except Err (List Nat)
  | [] => .ok []
  | v :: vs =>
    match pack_i v, packInts vs with
    | .ok b, .ok bs => .ok (b ++ bs)
    | .error e, _ => .error e
    | .ok _, .error e => .error e

/-- Concatenation of the 4-byte encodings, ignoring range (the buffer
`packInts` yields when every value is in range). -/
def packList : List Int → List Nat
  | [] => []
  | v :: vs => packBytes v ++ packList vs

/-- Models `struct.unpack(">i", bs)[0]`: requires exactly 4 bytes and
decodes a big-endian signed 32-bit integer. -/
def unpack_i (bs : List Nat) : Except Err Int :=
  if bs.length = 4 then
    let u : Nat := bs.foldl (fun a b => a * 256 + b) 0
    .ok (if u < 2147483648 then (u : Int) else (u : Int) - 4294967296)
  else .error .structError

/-- Models `_send_ints(*ints)`: `struct.pack` the values (`struct.error`
propagates first, as in the source), then write the buffer through the
writer handle and drain; a `None` writer raises. The sent frame is
recorded in the trace. -/
def _send_ints (ints : List Int) (st : St) : Except Err Unit × St :=
  match packInts ints with
  | .error e => (.error e, st)
  | .ok _ =>
    if st.writer then (.ok (), { st with trace := st.trace ++ [Event.sent ints] })
    else (.error .notConnected, st)

/-- Models `_recv_int()`: `await reader.readexactly(4)` — which raises
`IncompleteReadError` when fewer than 4 bytes remain — followed by
`struct.unpack(">i", data)[0]`. A `None` reader raises. -/
def _recv_int (st : St) : Except Err Int × St :=
  match st.reader with
  | none => (.error .notConnected, st)
  | some s =>
    if 4 ≤ s.length then
      match unpack_i (s.take 4) with
      | .ok v => (.ok v, { st with reader := some (s.drop 4) })
      | .error e => (.error e, { st with reader := some (s.drop 4) })
    else (.error .incompleteRead, st)

/-- Models the `for _ in range(0, length): try: data.append(await
self._recv_int()) except struct.error: ...` loop shared by
`_read_parameters` and `_read_calculations`: a `struct.error` is caught
and the loop continues; any other exception propagates. -/
def readLoop : Nat → List Int → St → Except Err (List Int) × St
  | 0, acc, st => (.ok acc, st)
  | n + 1, acc, st =>
    match _recv_int st with
    | (.ok v, st) => readLoop n (acc ++ [v]) st
    | (.error .structError, st) => readLoop n acc st
    | (.error e, st) => (.error e, st)

/-- Models `_read_parameters()`: send `(3003, 0)`, receive the command
echo and the declared length, read `range(0, length)` values (so a
negative length yields zero iterations), then `self.parameters.parse(data)`. -/
def _read_parameters (st : St) : Except Err Unit × St :=
  match _send_ints [3003, 0] st with
  | (.error e, st) => (.error e, st)
  | (.ok _, st) =>
    match _recv_int st with
    | (.error e, st) => (.error e, st)
    | (.ok _cmd, st) =>
      match _recv_int st with
      | (.error e, st) => (.error e, st)
      | (.ok length, st) =>
        match readLoop length.toNat [] st with
        | (.error e, st) => (.error e, st)
        | (.ok data, st) => (.ok (), { st with trace := st.trace ++ [Event.parseParams data] })

/-- Models `_read_calculations()`: send `(3004, 0)`, receive the command
echo, an extra status word, and the declared length, read the values,
then `self.calculations.parse(data)`. -/
def _read_calculations (st : St) : Except Err Unit × St :=
  match _send_ints [3004, 0] st with
  | (.error e, st) => (.error e, st)
  | (.ok _, st) =>
    match _recv_int st with
    | (.error e, st) => (.error e, st)
    | (.ok _cmd, st) =>
      match _recv_int st with
      | (.error e, st) => (.error e, st)
      | (.ok _stat, st) =>
        match _recv_int st with
        | (.error e, st) => (.error e, st)
        | (.ok length, st) =>
          match readLoop length.toNat [] st with
          | (.error e, st) => (.error e, st)
          | (.ok data, st) => (.ok (), { st with trace := st.trace ++ [Event.parseCalcs data] })

/-- Models `_read()`: parameters first, then calculations. -/
def _read (st : St) : Except Err Unit × St :=
  match _read_parameters st with
  | (.error e, st) => (.error e, st)
  | (.ok _, st) => _read_calculations st

/-- Models the `for index, value in self.parameters.queue.items()` loop of
`_write()`: a non-`int` index or value is skipped with a warning;
otherwise `(3002, index, value)` is sent and two integers are read back. -/
def writeLoop : List (PyVal × PyVal) → St → Except Err Unit × St
  | [], st => (.ok (), st)
  | (PyVal.intV i, PyVal.intV v) :: rest, st =>
    match _send_ints [3002, i, v] st with
    | (.error e, st) => (.error e, st)
    | (.ok _, st) =>
      match _recv_int st with
      | (.error e, st) => (.error e, st)
      | (.ok _cmd, st) =>
        match _recv_int st with
        | (.error e, st) => (.error e, st)
        | (.ok _val, st) => writeLoop rest st
  | _ :: rest, st => writeLoop rest st

/-- Models `_write()`: iterate the queue, then — only if no exception
escaped the loop — execute `self.parameters.queue = {}`. -/
def _write (st : St) : Except Err Unit × St :=
  match writeLoop st.queue st with
  | (.error e, st) => (.error e, st)
  | (.ok _, st) => (.ok (), { st with queue := [] })

/-- Models `_read_after_write(write)` (body under the lock; the model is
single-threaded): optionally `_write()` followed by the settle
`asyncio.sleep`, then `_read()`. -/
def _read_after_write (write : Bool) (st : St) : Except Err Unit × St :=
  if write then
    match _write st with
    | (.error e, st) => (.error e, st)
    | (.ok _, st) =>
      _read { st with trace := st.trace ++ [Event.sleep WAIT_TIME_AFTER_PARAMETER_WRITE] }
  else _read st

/-- Models the public `read()`. -/
def readCycle (st : St) : Except Err Unit × St := _read_after_write false st

/-- Models the public `write()`. -/
def writeCycle (st : St) : Except Err Unit × St := _read_after_write true st

/-- Models `__aexit__`: close the writer if present (not observable here)
and clear both handles unconditionally. -/
def aexit (st : St) : St := { st with reader := none, writer := false }

/-- The frame `_write()` emits for a queue entry: `some` of the
`(3002, index, value)` send for an `int` pair, `none` for a skipped entry. -/
def entryFrame : PyVal × PyVal → Option Event
  | (PyVal.intV i, PyVal.intV v) => some (Event.sent [3002, i, v])
  | _ => none

/-- A session whose connection was never opened: both handles cleared,
empty queue, empty trace. -/
def emptySt : St := ⟨none, false, [], []⟩

/-- Concrete failing input for the truncated-array read: the controller
echoes 3003, declares length 2, delivers one value (42), then the stream
ends. -/
def stTrunc : St := ⟨some ([0, 0, 11, 187] ++ [0, 0, 0, 2] ++ [0, 0, 0, 42]), true, [], []⟩

/-- Concrete input for the negative-length parameters read: echo 3003
then declared length -1 (bytes ff ff ff ff), nothing else. -/
def stNegLen : St := ⟨some ([0, 0, 11, 187] ++ [255, 255, 255, 255]), true, [], []⟩

/-- Concrete input for the negative-length calculations read: echo 3004,
status 0, then declared length -1, nothing else. -/
def stNegLenCalc : St :=
  ⟨some ([0, 0, 11, 188] ++ [0, 0, 0, 0] ++ [255, 255, 255, 255]), true, [], []⟩

/-- Concrete input for a write phase whose read-back fails: one valid
queued entry (5 ↦ 10) but an already-exhausted stream. -/
def stFailedWrite : St := ⟨some [], true, [(PyVal.intV 5, PyVal.intV 10)], []⟩

/-- Concrete input for one full successful read phase: parameters reply
echo 0, length 2, values 42 and 43; calculations reply echo 0, status 0,
length 1, value 99. -/
def stFullRead : St :=
  ⟨some [0, 0, 0, 0, 0, 0, 0, 2, 0, 0, 0, 42, 0, 0, 0, 43,
         0, 0, 0, 0, 0, 0, 0, 0, 0, 0, 0, 1, 0, 0, 0, 99], true, [], []⟩

/-- Concrete input for a successful write phase: queue 5 ↦ 10, stream
holding the two echoed integers. -/
def stOneWrite : St :=
  ⟨some [0, 0, 0, 0, 0, 0, 0, 0], true, [(PyVal.intV 5, PyVal.intV 10)], []⟩

/-- Concrete open-session input used to exercise closing and post-close
behavior. -/
def stPreClose : St := ⟨some [0, 0, 0, 1], true, [], []⟩

section CodecLemmas

theorem packBytes_length (v : Int) : (packBytes v).length = 4 := rfl

/-- Round trip of the wire codec on one integer: unpacking the 4 bytes
packed for an in-range `v` yields `v` again. -/
theorem unpack_packBytes (v : Int) (hv : wf32 v) : unpack_i (packBytes v) = Except.ok v := by
  obtain ⟨h1, h2⟩ := hv
  have h3 : (0 : Int) ≤ v % 4294967296 := Int.emod_nonneg v (by norm_num)
  have h4 : v % 4294967296 < 4294967296 := Int.emod_lt_of_pos v (by norm_num)
  simp only [unpack_i, packBytes, List.foldl, List.length_cons, List.length_nil]
  norm_num
  split
  · omega
  · omega

theorem pack_i_of_wf32 (v : Int) (hv : wf32 v) : pack_i v = Except.ok (packBytes v) := by
  simp [pack_i, hv]

/-- When every value is in range, `packInts` succeeds with the
concatenated encodings. -/
theorem packInts_of_wf32 (ints : List Int) (h : ∀ v ∈ ints, wf32 v) :
    packInts ints = Except.ok (packList ints) := by
  induction ints with
  | nil => rfl
  | cons v vs ih =>
    have hv := h v (List.mem_cons_self v vs)
    have hvs := ih fun w hw => h w (List.mem_cons_of_mem v hw)
    simp [packInts, packList, pack_i_of_wf32 v hv, hvs]

end CodecLemmas

section RecvLemmas

/-- Receiving from a stream that begins with the encoding of an in-range
integer yields that integer and consumes exactly its 4 bytes. -/
theorem recv_pack (v : Int) (hv : wf32 v) (rest : List Nat) (st : St)
    (hr : st.reader = some (packBytes v ++ rest)) :
    _recv_int st = (Except.ok v, { st with reader := some rest }) := by
  have hlen : (packBytes v ++ rest).length = 4 + rest.length := by
    simp [List.length_append, packBytes_length]
  have htake : (packBytes v ++ rest).take 4 = packBytes v := by
    have h := List.take_left (packBytes v) rest
    rwa [packBytes_length] at h
  have hdrop : (packBytes v ++ rest).drop 4 = rest := by
    have h := List.drop_left (packBytes v) rest
    rwa [packBytes_length] at h
  simp only [_recv_int, hr]
  rw [if_pos (by omega)]
  rw [htake, unpack_packBytes v hv, hdrop]

/-- Receiving from any stream holding at least 4 bytes succeeds (with
some value) and consumes exactly 4 bytes. -/
theorem recv_any (st : St) (s : List Nat) (hr : st.reader = some s) (h4 : 4 ≤ s.length) :
    ∃ w, _recv_int st = (Except.ok w, { st with reader := some (s.drop 4) }) := by
  have htake : (s.take 4).length = 4 := by simp [List.length_take]; omega
  simp only [_recv_int, hr]
  rw [if_pos h4]
  simp only [unpack_i, htake, if_pos rfl]
  exact ⟨_, rfl⟩

/-- Reading a stream that starts with the encodings of `vals` (all in
range) returns exactly `vals` appended to the accumulator and consumes
exactly their bytes. -/
theorem readLoop_ok (vals : List Int) (acc : List Int) (st : St) (rest : List Nat)
    (hvals : ∀ v ∈ vals, wf32 v) (hr : st.reader = some (packList vals ++ rest)) :
    readLoop vals.length acc st = (Except.ok (acc ++ vals), { st with reader := some rest }) := by
  induction vals generalizing acc st with
  | nil =>
    simp only [packList, List.nil_append] at hr
    cases st
    simp_all [readLoop]
  | cons v vs ih =>
    have hv := hvals v (List.mem_cons_self v vs)
    have hvs := fun w hw => hvals w (List.mem_cons_of_mem v hw)
    have hr' : st.reader = some (packBytes v ++ (packList vs ++ rest)) := by
      simpa [packList, List.append_assoc] using hr
    have hrecv := recv_pack v hv (packList vs ++ rest) st hr'
    simp only [List.length_cons, readLoop, hrecv]
    exact (by simpa using ih (acc ++ [v]) { st with reader := some (packList vs ++ rest) } hvs rfl)

end RecvLemmas

section PhaseLemmas

theorem packInts_3003 : packInts [3003, 0] = Except.ok [0, 0, 11, 187, 0, 0, 0, 0] := rfl

theorem packInts_3004 : packInts [3004, 0] = Except.ok [0, 0, 11, 188, 0, 0, 0, 0] := rfl

/-- Characterization of `_read_parameters` on a connected session whose
stream starts with a well-formed header (echo `e`, declared length `n`):
the send and the two header reads happen, then the value loop runs on the
remaining stream for `n.toNat` iterations. -/
theorem _read_parameters_eq (st : St) (e n : Int) (tail : List Nat)
    (he : wf32 e) (hn : wf32 n) (hw : st.writer = true)
    (hr : st.reader = some (packBytes e ++ packBytes n ++ tail)) :
    _read_parameters st =
      match readLoop n.toNat []
          { st with reader := some tail, trace := st.trace ++ [Event.sent [3003, 0]] } with
      | (.error er, st') => (.error er, st')
      | (.ok data, st') => (.ok (), { st' with trace := st'.trace ++ [Event.parseParams data] }) := by
  have hsend : _send_ints [3003, 0] st =
      (Except.ok (), { st with trace := st.trace ++ [Event.sent [3003, 0]] }) := by
    simp [_send_ints, packInts_3003, hw]
  have h1 : _recv_int { st with trace := st.trace ++ [Event.sent [3003, 0]] } =
      (Except.ok e, { st with reader := some (packBytes n ++ tail),
                              trace := st.trace ++ [Event.sent [3003, 0]] }) :=
    recv_pack e he (packBytes n ++ tail) _ (by simpa [List.append_assoc] using hr)
  have h2 : _recv_int { st with reader := some (packBytes n ++ tail),
                                trace := st.trace ++ [Event.sent [3003, 0]] } =
      (Except.ok n, { st with reader := some tail,
                              trace := st.trace ++ [Event.sent [3003, 0]] }) :=
    recv_pack n hn tail _ rfl
  simp only [_read_parameters, hsend, h1, h2]

/-- Characterization of `_read_calculations` on a connected session whose
stream starts with a well-formed header (echo `e`, status `stat`,
declared length `n`). -/
theorem _read_calculations_eq (st : St) (e stat n : Int) (tail : List Nat)
    (he : wf32 e) (hs : wf32 stat) (hn : wf32 n) (hw : st.writer = true)
    (hr : st.reader = some (packBytes e ++ packBytes stat ++ packBytes n ++ tail)) :
    _read_calculations st =
      match readLoop n.toNat []
          { st with reader := some tail, trace := st.trace ++ [Event.sent [3004, 0]] } with
      | (.error er, st') => (.error er, st')
      | (.ok data, st') => (.ok (), { st' with trace := st'.trace ++ [Event.parseCalcs data] }) := by
  have hsend : _send_ints [3004, 0] st =
      (Except.ok (), { st with trace := st.trace ++ [Event.sent [3004, 0]] }) := by
    simp [_send_ints, packInts_3004, hw]
  have h1 : _recv_int { st with trace := st.trace ++ [Event.sent [3004, 0]] } =
      (Except.ok e, { st with reader := some (packBytes stat ++ (packBytes n ++ tail)),
                              trace := st.trace ++ [Event.sent [3004, 0]] }) :=
    recv_pack e he (packBytes stat ++ (packBytes n ++ tail)) _
      (by simpa [List.append_assoc] using hr)
  have h2 : _recv_int { st with reader := some (packBytes stat ++ (packBytes n ++ tail)),
                                trace := st.trace ++ [Event.sent [3004, 0]] } =
      (Except.ok stat, { st with reader := some (packBytes n ++ tail),
                                 trace := st.trace ++ [Event.sent [3004, 0]] }) :=
    recv_pack stat hs (packBytes n ++ tail) _ rfl
  have h3 : _recv_int { st with reader := some (packBytes n ++ tail),
                                trace := st.trace ++ [Event.sent [3004, 0]] } =
      (Except.ok n, { st with reader := some tail,
                              trace := st.trace ++ [Event.sent [3004, 0]] }) :=
    recv_pack n hn tail _ rfl
  simp only [_read_calculations, hsend, h1, h2, h3]

/-- A fully decodable parameters reply: the phase succeeds, forwards
exactly the declared values to the parameter sink, and consumes exactly
the reply's bytes. -/
theorem _read_parameters_ok (st : St) (e : Int) (vals : List Int) (rest : List Nat)
    (he : wf32 e) (hv : ∀ v ∈ vals, wf32 v) (hlen : (vals.length : Int) < 2147483648)
    (hw : st.writer = true)
    (hr : st.reader = some (packBytes e ++ packBytes (vals.length : Int) ++ (packList vals ++ rest))) :
    _read_parameters st = (Except.ok (),
      { st with reader := some rest,
                trace := st.trace ++ [Event.sent [3003, 0], Event.parseParams vals] }) := by
  have hn : wf32 (vals.length : Int) := ⟨by omega, hlen⟩
  rw [_read_parameters_eq st e (vals.length : Int) (packList vals ++ rest) he hn hw hr]
  rw [Int.toNat_natCast]
  rw [readLoop_ok vals [] _ rest hv rfl]
  simp

/-- A fully decodable calculations reply: the phase succeeds, forwards
exactly the declared values to the calculations sink, and consumes
exactly the reply's bytes. -/
theorem _read_calculations_ok (st : St) (e stat : Int) (vals : List Int) (rest : List Nat)
    (he : wf32 e) (hs : wf32 stat) (hv : ∀ v ∈ vals, wf32 v)
    (hlen : (vals.length : Int) < 2147483648) (hw : st.writer = true)
    (hr : st.reader = some (packBytes e ++ packBytes stat ++ packBytes (vals.length : Int) ++ (packList vals ++ rest))) :
    _read_calculations st = (Except.ok (),
      { st with reader := some rest,
                trace := st.trace ++ [Event.sent [3004, 0], Event.parseCalcs vals] }) := by
  have hn : wf32 (vals.length : Int) := ⟨by omega, hlen⟩
  rw [_read_calculations_eq st e stat (vals.length : Int) (packList vals ++ rest) he hs hn hw hr]
  rw [Int.toNat_natCast]
  rw [readLoop_ok vals [] _ rest hv rfl]
  simp

end PhaseLemmas

section TraceLemmas

theorem _recv_int_fields (st : St) :
    (_recv_int st).2.writer = st.writer ∧ (_recv_int st).2.queue = st.queue ∧
      (_recv_int st).2.trace = st.trace := by
  rcases st with ⟨r, w, q, t⟩
  cases r with
  | none => exact ⟨rfl, rfl, rfl⟩
  | some s =>
    simp only [_recv_int]
    split
    · split <;> exact ⟨rfl, rfl, rfl⟩
    · exact ⟨rfl, rfl, rfl⟩

theorem readLoop_fields (n : Nat) (acc : List Int) (st : St) :
    (readLoop n acc st).2.writer = st.writer ∧ (readLoop n acc st).2.queue = st.queue ∧
      (readLoop n acc st).2.trace = st.trace := by
  induction n generalizing acc st with
  | zero => exact ⟨rfl, rfl, rfl⟩
  | succ n ih =>
    simp only [readLoop]
    split
    · rename_i v st' heq
      have hf := _recv_int_fields st
      rw [heq] at hf
      have hr := ih (acc ++ [v]) st'
      exact ⟨hr.1.trans hf.1, hr.2.1.trans hf.2.1, hr.2.2.trans hf.2.2⟩
    · rename_i st' heq
      have hf := _recv_int_fields st
      rw [heq] at hf
      have hr := ih acc st'
      exact ⟨hr.1.trans hf.1, hr.2.1.trans hf.2.1, hr.2.2.trans hf.2.2⟩
    · rename_i e st' hne heq
      have hf := _recv_int_fields st
      rw [heq] at hf
      exact hf

theorem _send_ints_cases (ints : List Int) (st : St) :
    (∃ e, _send_ints ints st = (Except.error e, st)) ∨
      _send_ints ints st = (Except.ok (), { st with trace := st.trace ++ [Event.sent ints] }) := by
  unfold _send_ints
  split
  · exact Or.inl ⟨_, rfl⟩
  · split
    · exact Or.inr rfl
    · exact Or.inl ⟨_, rfl⟩

theorem _read_parameters_trace (st : St) :
    ∃ t, (_read_parameters st).2.trace = st.trace ++ t ∧
      ∀ l, Event.sent l ∈ t → l = [3003, 0] := by
  unfold _read_parameters
  rcases _send_ints_cases [3003, 0] st with ⟨e, hs⟩ | hs <;> rw [hs]
  · exact ⟨[], by simp, by simp⟩
  · have key : ∀ st₁ : St, st₁.trace = st.trace ++ [Event.sent [3003, 0]] →
        ∃ t, ((match _recv_int st₁ with
          | (Except.error e, st) => (Except.error e, st)
          | (Except.ok _cmd, st) =>
            match _recv_int st with
            | (Except.error e, st) => (Except.error e, st)
            | (Except.ok length, st) =>
              match readLoop length.toNat [] st with
              | (Except.error e, st) => (Except.error e, st)
              | (Except.ok data, st) => (Except.ok (), { st with trace := st.trace ++ [Event.parseParams data] }) : Except Err Unit × St)).2.trace
          = st.trace ++ t ∧ ∀ l, Event.sent l ∈ t → l = [3003, 0] := by
      intro st₁ ht₁
      split
      · rename_i e st₂ heq
        have hf := (_recv_int_fields st₁).2.2
        rw [heq] at hf
        exact ⟨[Event.sent [3003, 0]], by rw [hf, ht₁], by simp⟩
      · rename_i _cmd st₂ heq
        have hf := (_recv_int_fields st₁).2.2
        rw [heq] at hf
        split
        · rename_i e st₃ heq₂
          have hf₂ := (_recv_int_fields st₂).2.2
          rw [heq₂] at hf₂
          exact ⟨[Event.sent [3003, 0]], by rw [hf₂, hf, ht₁], by simp⟩
        · rename_i length st₃ heq₂
          have hf₂ := (_recv_int_fields st₂).2.2
          rw [heq₂] at hf₂
          split
          · rename_i e st₄ heq₃
            have hf₃ := (readLoop_fields length.toNat [] st₃).2.2
            rw [heq₃] at hf₃
            exact ⟨[Event.sent [3003, 0]], by rw [hf₃, hf₂, hf, ht₁], by simp⟩
          · rename_i data st₄ heq₃
            have hf₃ := (readLoop_fields length.toNat [] st₃).2.2
            rw [heq₃] at hf₃
            refine ⟨[Event.sent [3003, 0], Event.parseParams data], ?_, by simp⟩
            simp only [St.mk.injEq]
            rw [hf₃, hf₂, hf, ht₁]
            simp
    exact key _ rfl


theorem _read_calculations_trace (st : St) :
    ∃ t, (_read_calculations st).2.trace = st.trace ++ t ∧
      ∀ l, Event.sent l ∈ t → l = [3004, 0] := by
  unfold _read_calculations
  rcases _send_ints_cases [3004, 0] st with ⟨e, hs⟩ | hs <;> rw [hs]
  · exact ⟨[], by simp, by simp⟩
  · have ht₁ : ({ st with trace := st.trace ++ [Event.sent [3004, 0]] } : St).trace
        = st.trace ++ [Event.sent [3004, 0]] := rfl
    generalize hgen : ({ st with trace := st.trace ++ [Event.sent [3004, 0]] } : St) = st₁ at ht₁ ⊢
    split
    · rename_i e st₂ heq
      exact absurd heq (by simp)
    · rename_i _cmd st₂ heq
      injection heq with h1 h2
      subst h2
      split
      · rename_i e st₂ heq
        have hf := (_recv_int_fields st₁).2.2
        rw [heq] at hf
        exact ⟨[Event.sent [3004, 0]], by rw [hf, ht₁], by simp⟩
      · rename_i _cmd st₂ heq
        have hf := (_recv_int_fields st₁).2.2
        rw [heq] at hf
        split
        · rename_i e st₃ heq₂
          have hf₂ := (_recv_int_fields st₂).2.2
          rw [heq₂] at hf₂
          exact ⟨[Event.sent [3004, 0]], by rw [hf₂, hf, ht₁], by simp⟩
        · rename_i _stat st₃ heq₂
          have hf₂ := (_recv_int_fields st₂).2.2
          rw [heq₂] at hf₂
          split
          · rename_i e st₄ heq₃
            have hf₃ := (_recv_int_fields st₃).2.2
            rw [heq₃] at hf₃
            exact ⟨[Event.sent [3004, 0]], by rw [hf₃, hf₂, hf, ht₁], by simp⟩
          · rename_i length st₄ heq₃
            have hf₃ := (_recv_int_fields st₃).2.2
            rw [heq₃] at hf₃
            split
            · rename_i e st₅ heq₄
              have hf₄ := (readLoop_fields length.toNat [] st₄).2.2
              rw [heq₄] at hf₄
              exact ⟨[Event.sent [3004, 0]], by rw [hf₄, hf₃, hf₂, hf, ht₁], by simp⟩
            · rename_i data st₅ heq₄
              have hf₄ := (readLoop_fields length.toNat [] st₄).2.2
              rw [heq₄] at hf₄
              refine ⟨[Event.sent [3004, 0], Event.parseCalcs data], ?_, by simp⟩
              show st₅.trace ++ [Event.parseCalcs data] = st.trace ++ _
              rw [hf₄, hf₃, hf₂, hf, ht₁]
              simp

end TraceLemmas

section WriteLemmas

theorem _send_ints_fields (ints : List Int) (st : St) :
    (_send_ints ints st).2.reader = st.reader ∧ (_send_ints ints st).2.writer = st.writer ∧
      (_send_ints ints st).2.queue = st.queue := by
  unfold _send_ints
  split
  · exact ⟨rfl, rfl, rfl⟩
  · split <;> exact ⟨rfl, rfl, rfl⟩

theorem writeLoop_queue_writer (entries : List (PyVal × PyVal)) (st : St) :
    (writeLoop entries st).2.queue = st.queue ∧ (writeLoop entries st).2.writer = st.writer := by
  induction entries generalizing st with
  | nil => exact ⟨rfl, rfl⟩
  | cons ent rest ih =>
    obtain ⟨a, b⟩ := ent
    cases a <;> cases b
    case intV.intV i v =>
      simp only [writeLoop]
      split
      · rename_i e st₁ heq
        have hf := _send_ints_fields [3002, i, v] st
        rw [heq] at hf
        exact ⟨hf.2.2, hf.2.1⟩
      · rename_i _u st₁ heq
        have hf := _send_ints_fields [3002, i, v] st
        rw [heq] at hf
        split
        · rename_i e st₂ heq₂
          have hf₂ := _recv_int_fields st₁
          rw [heq₂] at hf₂
          exact ⟨hf₂.2.1.trans hf.2.2, hf₂.1.trans hf.2.1⟩
        · rename_i _c st₂ heq₂
          have hf₂ := _recv_int_fields st₁
          rw [heq₂] at hf₂
          split
          · rename_i e st₃ heq₃
            have hf₃ := _recv_int_fields st₂
            rw [heq₃] at hf₃
            exact ⟨(hf₃.2.1.trans hf₂.2.1).trans hf.2.2, (hf₃.1.trans hf₂.1).trans hf.2.1⟩
          · rename_i _v st₃ heq₃
            have hf₃ := _recv_int_fields st₂
            rw [heq₃] at hf₃
            have hr := ih st₃
            exact ⟨hr.1.trans ((hf₃.2.1.trans hf₂.2.1).trans hf.2.2),
                   hr.2.trans ((hf₃.1.trans hf₂.1).trans hf.2.1)⟩
    case intV.strV i s => exact ih st
    case strV.intV s v => exact ih st
    case strV.strV s s' => exact ih st

theorem writeLoop_trace (entries : List (PyVal × PyVal)) (st : St) :
    ∃ t, (writeLoop entries st).2.trace = st.trace ++ t ∧
      ∀ ev ∈ t, ∃ i v, ev = Event.sent [3002, i, v] := by
  induction entries generalizing st with
  | nil => exact ⟨[], by simp [writeLoop], by simp⟩
  | cons ent rest ih =>
    obtain ⟨a, b⟩ := ent
    cases a <;> cases b
    case intV.intV i v =>
      simp only [writeLoop]
      rcases _send_ints_cases [3002, i, v] st with ⟨e, hs⟩ | hs <;> rw [hs]
      · exact ⟨[], by simp, by simp⟩
      · have ht₁ : ({ st with trace := st.trace ++ [Event.sent [3002, i, v]] } : St).trace
            = st.trace ++ [Event.sent [3002, i, v]] := rfl
        generalize ({ st with trace := st.trace ++ [Event.sent [3002, i, v]] } : St) = st₁ at ht₁ ⊢
        split
        · rename_i e st₂ heq
          exact absurd heq (by simp)
        · rename_i _u st₂ heq
          injection heq with h1 h2
          subst h2
          split
          · rename_i e st₂ heq
            have hf := (_recv_int_fields st₁).2.2
            rw [heq] at hf
            exact ⟨[Event.sent [3002, i, v]], by rw [hf, ht₁], by simp⟩
          · rename_i _c st₂ heq
            have hf := (_recv_int_fields st₁).2.2
            rw [heq] at hf
            split
            · rename_i e st₃ heq₂
              have hf₂ := (_recv_int_fields st₂).2.2
              rw [heq₂] at hf₂
              exact ⟨[Event.sent [3002, i, v]], by rw [hf₂, hf, ht₁], by simp⟩
            · rename_i _v st₃ heq₂
              have hf₂ := (_recv_int_fields st₂).2.2
              rw [heq₂] at hf₂
              obtain ⟨t, ht, hall⟩ := ih st₃
              refine ⟨Event.sent [3002, i, v] :: t, ?_, ?_⟩
              · rw [ht, hf₂, hf, ht₁]
                simp
              · intro ev hev
                rcases List.mem_cons.mp hev with rfl | hmem
                · exact ⟨i, v, rfl⟩
                · exact hall ev hmem
    case intV.strV i s => exact ih st
    case strV.intV s v => exact ih st
    case strV.strV s s' => exact ih st


theorem filterMap_entryFrame_none {ent : PyVal × PyVal} (h : entryFrame ent = none)
    (rest : List (PyVal × PyVal)) :
    (ent :: rest).filterMap entryFrame = rest.filterMap entryFrame := by
  simp [List.filterMap_cons, h]

theorem writeLoop_skip {a b : PyVal} (h : entryFrame (a, b) = none)
    (rest : List (PyVal × PyVal)) (st : St) :
    writeLoop ((a, b) :: rest) st = writeLoop rest st := by
  cases a <;> cases b
  · exact absurd h (by simp [entryFrame])
  · rfl
  · rfl
  · rfl

/-- A write phase over a queue of well-formed entries mixed with
skippable (non-`int`) entries, on a stream long enough for each emitted
frame's two read-backs: every well-formed entry produces exactly its
`(3002, index, value)` frame, in order; skipped entries produce nothing;
8 bytes are consumed per frame; no exception escapes. -/
theorem writeLoop_ok (entries : List (PyVal × PyVal)) (st : St) (s : List Nat)
    (hok : ∀ ent ∈ entries, entryFrame ent = none ∨
      ∃ i v, ent = (PyVal.intV i, PyVal.intV v) ∧ wf32 i ∧ wf32 v)
    (hw : st.writer = true) (hr : st.reader = some s)
    (hlen : 8 * (entries.filterMap entryFrame).length ≤ s.length) :
    writeLoop entries st = (Except.ok (),
      { st with reader := some (s.drop (8 * (entries.filterMap entryFrame).length)),
                trace := st.trace ++ entries.filterMap entryFrame }) := by
  induction entries generalizing st s with
  | nil =>
    cases st
    simp_all [writeLoop]
  | cons ent rest ih =>
    have hrest := fun w hw' => hok w (List.mem_cons_of_mem ent hw')
    rcases hok ent (List.mem_cons_self ent rest) with hnone | ⟨i, v, rfl, hwi, hwv⟩
    · obtain ⟨a, b⟩ := ent
      rw [writeLoop_skip hnone rest st, filterMap_entryFrame_none hnone rest]
      rw [filterMap_entryFrame_none hnone rest] at hlen
      exact ih st s hrest hw hr hlen
    · have h3002 : wf32 (3002 : Int) := by constructor <;> norm_num
      obtain ⟨bs, hbs⟩ : ∃ bs, packInts [3002, i, v] = Except.ok bs :=
        ⟨_, packInts_of_wf32 [3002, i, v] (by
          intro w hwm
          simp only [List.mem_cons, List.not_mem_nil, or_false] at hwm
          rcases hwm with rfl | rfl | rfl
          · exact h3002
          · exact hwi
          · exact hwv)⟩
      have hsend : _send_ints [3002, i, v] st =
          (Except.ok (), { st with trace := st.trace ++ [Event.sent [3002, i, v]] }) := by
        simp [_send_ints, hbs, hw]
      have hfm : ((PyVal.intV i, PyVal.intV v) :: rest).filterMap entryFrame
          = Event.sent [3002, i, v] :: rest.filterMap entryFrame := by
        simp [List.filterMap_cons, entryFrame]
      rw [hfm] at hlen ⊢
      simp only [List.length_cons] at hlen
      have h8 : 8 ≤ s.length := by omega
      obtain ⟨w₁, h₁⟩ := recv_any
        { st with trace := st.trace ++ [Event.sent [3002, i, v]] } s hr (by omega)
      obtain ⟨w₂, h₂⟩ := recv_any
        { st with reader := some (s.drop 4), trace := st.trace ++ [Event.sent [3002, i, v]] }
        (s.drop 4) rfl (by simp [List.length_drop]; omega)
      have hih := ih
        { st with reader := some ((s.drop 4).drop 4),
                  trace := st.trace ++ [Event.sent [3002, i, v]] }
        ((s.drop 4).drop 4) hrest hw rfl
        (by simp only [List.drop_drop, List.length_drop]; omega)
      simp only [writeLoop, hsend, h₁, h₂, hih]
      have hdd : ((s.drop 4).drop 4).drop (8 * (rest.filterMap entryFrame).length)
          = s.drop (8 * ((rest.filterMap entryFrame).length + 1)) := by
        simp only [List.drop_drop]
        congr 1
        omega
      rw [hdd]
      simp [List.append_assoc]

end WriteLemmas

section CycleLemmas

theorem _write_trace (st : St) :
    ∃ t, (_write st).2.trace = st.trace ++ t ∧
      ∀ ev ∈ t, ∃ i v, ev = Event.sent [3002, i, v] := by
  unfold _write
  obtain ⟨t, ht, hall⟩ := writeLoop_trace st.queue st
  split
  · rename_i e st₁ heq
    rw [heq] at ht
    exact ⟨t, ht, hall⟩
  · rename_i _u st₁ heq
    rw [heq] at ht
    exact ⟨t, ht, hall⟩

theorem _write_ok_queue (st : St) (h : (_write st).1 = Except.ok ()) :
    (_write st).2.queue = [] := by
  unfold _write at h ⊢
  split at h
  · simp at h
  · rfl

theorem _write_err_queue (st : St) (e : Err) (h : (_write st).1 = Except.error e) :
    (_write st).2.queue = st.queue := by
  unfold _write at h ⊢
  split at h
  · rename_i e' st₁ heq
    have hq := (writeLoop_queue_writer st.queue st).1
    rw [heq] at hq
    exact hq
  · simp at h

theorem _read_trace (st : St) :
    ∃ t, (_read st).2.trace = st.trace ++ t ∧
      ∀ l, Event.sent l ∈ t → l = [3003, 0] ∨ l = [3004, 0] := by
  unfold _read
  obtain ⟨t₁, ht₁, hall₁⟩ := _read_parameters_trace st
  split
  · rename_i e st₁ heq
    rw [heq] at ht₁
    exact ⟨t₁, ht₁, fun l hl => Or.inl (hall₁ l hl)⟩
  · rename_i _u st₁ heq
    rw [heq] at ht₁
    obtain ⟨t₂, ht₂, hall₂⟩ := _read_calculations_trace st₁
    refine ⟨t₁ ++ t₂, ?_, ?_⟩
    · rw [ht₂, ht₁, List.append_assoc]
    · intro l hl
      rcases List.mem_append.mp hl with h | h
      · exact Or.inl (hall₁ l h)
      · exact Or.inr (hall₂ l h)

end CycleLemmas

section Claims

/-- C1: the claim says a read phase whose declared length overstates the
available data stops early, returns the partial sequence and does not
raise. On the code, `readexactly(4)` raises `IncompleteReadError`, which
the `except struct.error` handler does not catch: at the concrete input
(echo 3003, declared length 2, one decodable value 42, then end of
stream) `_read_parameters` raises to the caller and the parameter sink is
never invoked (no `parseParams` event in the trace). -/
theorem c1_truncated_read_raises :
    (_read_parameters stTrunc).1 = Except.error Err.incompleteRead ∧
    (_read_parameters stTrunc).2.trace = [Event.sent [3003, 0]] := ⟨rfl, rfl⟩

/-- C2 counterexample: with declared length -1 (a negative length), the
parameters read phase raises nothing — it returns successfully and
forwards the empty list to the sink, contradicting the claim that a
negative declared length raises a `ProtocolError`. -/
theorem c2_counterexample_negative_length_no_error :
    (_read_parameters stNegLen).1 = Except.ok () ∧
    (_read_parameters stNegLen).2.trace = [Event.sent [3003, 0], Event.parseParams []] :=
  ⟨rfl, rfl⟩

/-- C2 (amended): in every read phase, if the declared length received
from the controller is negative, the array reader treats it as zero: it
reads no values, raises nothing, and forwards the empty sequence to the
sink (the code has no `ProtocolError` and performs no validation of the
length) — for the parameters phase (command 3003) and the calculations
phase (command 3004, with its extra status word) alike. -/
theorem c2_negative_length_treated_as_zero (st₁ st₂ : St) (e₁ e₂ stat n₁ n₂ : Int)
    (r₁ r₂ : List Nat)
    (he₁ : wf32 e₁) (he₂ : wf32 e₂) (hs : wf32 stat) (hn₁ : wf32 n₁) (hn₂ : wf32 n₂)
    (hneg₁ : n₁ < 0) (hneg₂ : n₂ < 0) (hw₁ : st₁.writer = true) (hw₂ : st₂.writer = true)
    (hr₁ : st₁.reader = some (packBytes e₁ ++ packBytes n₁ ++ r₁))
    (hr₂ : st₂.reader = some (packBytes e₂ ++ packBytes stat ++ packBytes n₂ ++ r₂)) :
    _read_parameters st₁ = (Except.ok (),
      { st₁ with reader := some r₁,
                 trace := st₁.trace ++ [Event.sent [3003, 0], Event.parseParams []] }) ∧
    _read_calculations st₂ = (Except.ok (),
      { st₂ with reader := some r₂,
                 trace := st₂.trace ++ [Event.sent [3004, 0], Event.parseCalcs []] }) := by
  constructor
  · rw [_read_parameters_eq st₁ e₁ n₁ r₁ he₁ hn₁ hw₁ hr₁]
    have h0 : n₁.toNat = 0 := by omega
    rw [h0]
    simp [readLoop]
  · rw [_read_calculations_eq st₂ e₂ stat n₂ r₂ he₂ hs hn₂ hw₂ hr₂]
    have h0 : n₂.toNat = 0 := by omega
    rw [h0]
    simp [readLoop]

/-- C2 witness: the amended statement holds at the concrete negative
declared length -1 in both read phases (parameters reply echo 3003 then
length -1; calculations reply echo 3004, status 0, then length -1). -/
theorem c2_witness :
    wf32 3003 ∧ wf32 3004 ∧ wf32 0 ∧ wf32 (-1) ∧ (-1 : Int) < 0 ∧
    (_read_parameters stNegLen = (Except.ok (),
      { stNegLen with reader := some [],
                      trace := [Event.sent [3003, 0], Event.parseParams []] }) ∧
    _read_calculations stNegLenCalc = (Except.ok (),
      { stNegLenCalc with reader := some [],
                          trace := [Event.sent [3004, 0], Event.parseCalcs []] })) :=
  ⟨by decide, by decide, by decide, by decide, by decide,
    c2_negative_length_treated_as_zero stNegLen stNegLenCalc 3003 3004 0 (-1) (-1) [] []
      (by decide) (by decide) (by decide) (by decide) (by decide) (by decide) (by decide)
      rfl rfl (by decide) (by decide)⟩

/-- C5 counterexample: with one valid queued entry and an exhausted
stream, the read-back after the `(3002, 5, 10)` frame raises and the
queue is NOT cleared — contradicting the claim that the queue is
discarded even when a send or read-back fails. -/
theorem c5_counterexample_failed_write_keeps_queue :
    (_write stFailedWrite).1 = Except.error Err.incompleteRead ∧
    (_write stFailedWrite).2.queue = [(PyVal.intV 5, PyVal.intV 10)] ∧
    (_write stFailedWrite).2.queue ≠ [] := ⟨rfl, rfl, by decide⟩

/-- C5 (amended): the pending-write queue is discarded in its entirety
exactly when the write phase completes without an exception (skipped
invalid entries included); when a send or read-back raises mid-phase the
exception propagates and the queue keeps all its entries. -/
theorem c5_queue_cleared_only_on_clean_completion (st : St) :
    ((_write st).1 = Except.ok () → (_write st).2.queue = []) ∧
    (∀ e, (_write st).1 = Except.error e → (_write st).2.queue = st.queue) :=
  ⟨_write_ok_queue st, fun e he => _write_err_queue st e he⟩

/-- C5 witness: a write phase that completes cleanly leaves the queue
empty at a concrete input. -/
theorem c5_witness :
    (_write stOneWrite).1 = Except.ok () ∧ (_write stOneWrite).2.queue = [] :=
  ⟨rfl, (c5_queue_cleared_only_on_clean_completion stOneWrite).1 rfl⟩

/-- C9: closing the session is idempotent, always clears both the reader
and writer handles (also on a never-opened or already-closed session),
and a subsequent send of any packable frame or any receive attempt fails
fast with the not-connected error (the `AttributeError` on the `None`
handle — the spec's `NotConnected`) without touching any stream. -/
theorem c9_close_idempotent_clears_handles (st : St) (ints : List Int) (bs : List Nat)
    (hp : packInts ints = Except.ok bs) :
    aexit (aexit st) = aexit st ∧
    (aexit st).reader = none ∧ (aexit st).writer = false ∧
    _send_ints ints (aexit st) = (Except.error Err.notConnected, aexit st) ∧
    _recv_int (aexit st) = (Except.error Err.notConnected, aexit st) := by
  refine ⟨rfl, rfl, rfl, ?_, rfl⟩
  simp [_send_ints, hp, aexit]

/-- C9 witness: the statement holds at a concrete open session and the
concrete frame `(3003, 0)`. -/
theorem c9_witness :
    packInts [3003, 0] = Except.ok [0, 0, 11, 187, 0, 0, 0, 0] ∧
    (aexit (aexit stPreClose) = aexit stPreClose ∧
      (aexit stPreClose).reader = none ∧ (aexit stPreClose).writer = false ∧
      _send_ints [3003, 0] (aexit stPreClose) = (Except.error Err.notConnected, aexit stPreClose) ∧
      _recv_int (aexit stPreClose) = (Except.error Err.notConnected, aexit stPreClose)) :=
  ⟨rfl, c9_close_idempotent_clears_handles stPreClose [3003, 0] [0, 0, 11, 187, 0, 0, 0, 0] rfl⟩

/-- C10: the wire codec round-trips — receiving from a stream that starts
with the buffer `struct.pack(">i", v)` produced for any in-range `v`
yields `v` back and consumes exactly that buffer — and a successful
`struct.pack` of `n` integers always produces a buffer of exactly `4*n`
bytes. -/
theorem c10_codec_roundtrip_and_length :
    (∀ (v : Int) (bs rest : List Nat) (st : St), packInts [v] = Except.ok bs →
      st.reader = some (bs ++ rest) →
      _recv_int st = (Except.ok v, { st with reader := some rest })) ∧
    (∀ (ints : List Int) (bs : List Nat), packInts ints = Except.ok bs →
      bs.length = 4 * ints.length) := by
  constructor
  · intro v bs rest st hp hr
    by_cases hwf : wf32 v
    · have hb : bs = packBytes v ++ [] := by
        simp [packInts, pack_i_of_wf32 v hwf] at hp
        exact hp.symm
      refine recv_pack v hwf rest st ?_
      rw [hr, hb]
      simp
    · exfalso
      simp [packInts, pack_i, hwf] at hp
  · intro ints bs hp
    induction ints generalizing bs with
    | nil =>
      simp [packInts] at hp
      simp [← hp]
    | cons v vs ih =>
      rcases hpv : pack_i v with e | b <;> rcases hpvs : packInts vs with e' | bs' <;>
        simp [packInts, hpv, hpvs] at hp
      have hb : b.length = 4 := by
        by_cases hwf : wf32 v
        · simp [pack_i, hwf] at hpv
          rw [← hpv]
          exact packBytes_length v
        · simp [pack_i, hwf] at hpv
      rw [← hp]
      simp [List.length_append, hb, ih bs' hpvs]
      ring

/-- C10 witness: the round trip holds at the concrete in-range value -1,
and packing the concrete frame `(3002, 5, 10)` yields a 12-byte buffer. -/
theorem c10_witness :
    packInts [-1] = Except.ok [255, 255, 255, 255] ∧
    _recv_int (⟨some ([255, 255, 255, 255] ++ []), false, [], []⟩ : St) =
      (Except.ok (-1), { (⟨some ([255, 255, 255, 255] ++ []), false, [], []⟩ : St) with
                          reader := some [] }) ∧
    ([0, 0, 11, 186, 0, 0, 0, 5, 0, 0, 0, 10] : List Nat).length = 4 * ([3002, 5, 10] : List Int).length :=
  ⟨rfl,
   c10_codec_roundtrip_and_length.1 (-1) [255, 255, 255, 255] [] _ rfl rfl,
   c10_codec_roundtrip_and_length.2 [3002, 5, 10] _ rfl⟩

/-- Concrete mixed queue for the write phase: one entry with a non-int
value (skipped) followed by one valid int pair, with 8 stream bytes for
the valid entry's two read-backs. -/
def stMixed : St :=
  ⟨some [0, 0, 0, 0, 0, 0, 0, 0], true,
   [(PyVal.intV 5, PyVal.strV "x"), (PyVal.intV 7, PyVal.intV 8)], []⟩

/-- Frames emitted for an all-int queue: one per entry, in order. -/
theorem filterMap_entryFrame_map_int (pairs : List (Int × Int)) :
    (pairs.map (fun p => (PyVal.intV p.1, PyVal.intV p.2))).filterMap entryFrame
      = pairs.map (fun p => Event.sent [3002, p.1, p.2]) := by
  induction pairs with
  | nil => rfl
  | cons p ps ih =>
    simp only [List.map_cons, List.filterMap_cons, entryFrame, ih]

/-- C3: for a queue of well-formed integer pairs (each in the signed
32-bit range), one write phase sends exactly one `(3002, index, value)`
frame per entry, in the queue's iteration order, consumes exactly the 8
bytes of the two echoed integers read back after each frame, leaves the
queue empty, and raises nothing. -/
theorem c3_write_phase_sends_queue_in_order (pairs : List (Int × Int)) (st : St) (s : List Nat)
    (hwf : ∀ p ∈ pairs, wf32 p.1 ∧ wf32 p.2)
    (hq : st.queue = pairs.map (fun p => (PyVal.intV p.1, PyVal.intV p.2)))
    (hw : st.writer = true) (hr : st.reader = some s)
    (hlen : 8 * pairs.length ≤ s.length) :
    _write st = (Except.ok (),
      { st with queue := [],
                reader := some (s.drop (8 * pairs.length)),
                trace := st.trace ++ pairs.map (fun p => Event.sent [3002, p.1, p.2]) }) := by
  have hfm := filterMap_entryFrame_map_int pairs
  have hok : ∀ ent ∈ pairs.map (fun p => (PyVal.intV p.1, PyVal.intV p.2)),
      entryFrame ent = none ∨
        ∃ i v, ent = (PyVal.intV i, PyVal.intV v) ∧ wf32 i ∧ wf32 v := by
    intro ent hent
    rw [List.mem_map] at hent
    obtain ⟨p, hp, rfl⟩ := hent
    exact Or.inr ⟨p.1, p.2, rfl, (hwf p hp).1, (hwf p hp).2⟩
  have hwl := writeLoop_ok (pairs.map (fun p => (PyVal.intV p.1, PyVal.intV p.2))) st s hok hw hr
    (by rw [hfm, List.length_map]; exact hlen)
  rw [hfm, List.length_map] at hwl
  unfold _write
  rw [hq, hwl]

/-- C3 witness: a queue holding the single pair (5, 10) and a stream of 8
bytes produce exactly the frame `(3002, 5, 10)` and an empty queue. -/
theorem c3_witness :
    _write stOneWrite = (Except.ok (),
      { stOneWrite with queue := [], reader := some [],
                        trace := [Event.sent [3002, 5, 10]] }) := by
  have h := c3_write_phase_sends_queue_in_order [(5, 10)] stOneWrite
    [0, 0, 0, 0, 0, 0, 0, 0] (by decide) rfl rfl rfl (by decide)
  simpa using h

/-- C4: in a queue mixing well-formed integer pairs with entries whose
index or value is not an int, the write phase skips each non-int entry —
it contributes no frame (`entryFrame` yields `none` for it, so nothing is
filtered into the emitted frame list) — raises nothing, and the queue is
fully cleared afterwards, skipped entries included. -/
theorem c4_invalid_entries_skipped_queue_cleared (entries : List (PyVal × PyVal)) (st : St)
    (s : List Nat)
    (hok : ∀ ent ∈ entries, entryFrame ent = none ∨
      ∃ i v, ent = (PyVal.intV i, PyVal.intV v) ∧ wf32 i ∧ wf32 v)
    (hq : st.queue = entries) (hw : st.writer = true) (hr : st.reader = some s)
    (hlen : 8 * (entries.filterMap entryFrame).length ≤ s.length) :
    _write st = (Except.ok (),
      { st with queue := [],
                reader := some (s.drop (8 * (entries.filterMap entryFrame).length)),
                trace := st.trace ++ entries.filterMap entryFrame }) := by
  have hwl := writeLoop_ok entries st s hok hw hr hlen
  unfold _write
  rw [hq, hwl]

/-- C4 witness: the mixed queue (5 ↦ "x" skipped, 7 ↦ 8 written) clears
completely and emits only the frame for the valid entry. -/
theorem c4_witness :
    _write stMixed = (Except.ok (),
      { stMixed with queue := [], reader := some [],
                     trace := [Event.sent [3002, 7, 8]] }) := by
  have h := c4_invalid_entries_skipped_queue_cleared
    [(PyVal.intV 5, PyVal.strV "x"), (PyVal.intV 7, PyVal.intV 8)] stMixed
    [0, 0, 0, 0, 0, 0, 0, 0]
    (by
      intro ent hent
      simp only [List.mem_cons, List.not_mem_nil, or_false] at hent
      rcases hent with rfl | rfl
      · exact Or.inl rfl
      · exact Or.inr ⟨7, 8, rfl, by decide, by decide⟩)
    rfl rfl rfl (by decide)
  simpa [entryFrame] using h

/-- C7: a read phase first sends `(3003, 0)`, consumes echo, length and
the parameter values and forwards them to the parameter sink, and only
then sends `(3004, 0)`, consumes echo, the extra status word, length and
the calculation values and forwards them to the calculations sink — the
trace shows parameters strictly before calculations and the stream is
consumed in exactly that layout. -/
theorem c7_read_order_parameters_then_calculations (st : St) (e₁ stat e₂ : Int)
    (vals₁ vals₂ : List Int) (rest : List Nat)
    (he₁ : wf32 e₁) (he₂ : wf32 e₂) (hst : wf32 stat)
    (hv₁ : ∀ v ∈ vals₁, wf32 v) (hv₂ : ∀ v ∈ vals₂, wf32 v)
    (hl₁ : (vals₁.length : Int) < 2147483648) (hl₂ : (vals₂.length : Int) < 2147483648)
    (hw : st.writer = true)
    (hr : st.reader = some (packBytes e₁ ++ packBytes (vals₁.length : Int) ++ packList vals₁ ++
      packBytes e₂ ++ packBytes stat ++ packBytes (vals₂.length : Int) ++ packList vals₂ ++ rest)) :
    _read st = (Except.ok (),
      { st with reader := some rest,
                trace := st.trace ++ [Event.sent [3003, 0], Event.parseParams vals₁,
                                      Event.sent [3004, 0], Event.parseCalcs vals₂] }) := by
  have hr' : st.reader = some (packBytes e₁ ++ packBytes (vals₁.length : Int) ++
      (packList vals₁ ++ (packBytes e₂ ++ packBytes stat ++ packBytes (vals₂.length : Int) ++
        (packList vals₂ ++ rest)))) := by
    rw [hr]
    simp [List.append_assoc]
  have hrp := _read_parameters_ok st e₁ vals₁
    (packBytes e₂ ++ packBytes stat ++ packBytes (vals₂.length : Int) ++ (packList vals₂ ++ rest))
    he₁ hv₁ hl₁ hw hr'
  have hrc := _read_calculations_ok
    { st with
        reader := some (packBytes e₂ ++ packBytes stat ++ packBytes (vals₂.length : Int) ++
          (packList vals₂ ++ rest)),
        trace := st.trace ++ [Event.sent [3003, 0], Event.parseParams vals₁] }
    e₂ stat vals₂ rest he₂ hst hv₂ hl₂ hw rfl
  unfold _read
  rw [hrp]
  refine hrc.trans ?_
  simp

/-- C7 witness: the fixed order holds at the spec's end-to-end example —
parameters `[42, 43]`, then calculations `[99]`. -/
theorem c7_witness :
    _read stFullRead = (Except.ok (),
      { stFullRead with reader := some [],
                        trace := [Event.sent [3003, 0], Event.parseParams [42, 43],
                                  Event.sent [3004, 0], Event.parseCalcs [99]] }) := by
  have h := c7_read_order_parameters_then_calculations stFullRead 0 0 0 [42, 43] [99] []
    (by decide) (by decide) (by decide)
    (by decide) (by decide) (by decide) (by decide) rfl (by decide)
  simpa using h

/-- C8: when the declared length is 0, each read phase forwards the empty
sequence to its sink and consumes no bytes beyond the header fields —
echo and length for parameters; echo, status and length for
calculations. -/
theorem c8_zero_length_reads_empty (st₁ st₂ : St) (e₁ e₂ stat : Int) (r₁ r₂ : List Nat)
    (he₁ : wf32 e₁) (he₂ : wf32 e₂) (hs : wf32 stat)
    (hw₁ : st₁.writer = true) (hw₂ : st₂.writer = true)
    (hr₁ : st₁.reader = some (packBytes e₁ ++ packBytes 0 ++ r₁))
    (hr₂ : st₂.reader = some (packBytes e₂ ++ packBytes stat ++ packBytes 0 ++ r₂)) :
    _read_parameters st₁ = (Except.ok (),
      { st₁ with reader := some r₁,
                 trace := st₁.trace ++ [Event.sent [3003, 0], Event.parseParams []] }) ∧
    _read_calculations st₂ = (Except.ok (),
      { st₂ with reader := some r₂,
                 trace := st₂.trace ++ [Event.sent [3004, 0], Event.parseCalcs []] }) := by
  constructor
  · have h := _read_parameters_ok st₁ e₁ [] r₁ he₁ (by simp) (by norm_num) hw₁ (by exact hr₁)
    simpa using h
  · have h := _read_calculations_ok st₂ e₂ stat [] r₂ he₂ hs (by simp) (by norm_num) hw₂
      (by exact hr₂)
    simpa using h

/-- C8 witness: a zero-length parameters reply and a zero-length
calculations reply, each with one pending byte left on the stream, yield
empty sequences and leave that byte unread. -/
theorem c8_witness :
    _read_parameters (⟨some [0, 0, 0, 0, 0, 0, 0, 0, 9], true, [], []⟩ : St) = (Except.ok (),
      { (⟨some [0, 0, 0, 0, 0, 0, 0, 0, 9], true, [], []⟩ : St) with
          reader := some [9],
          trace := [Event.sent [3003, 0], Event.parseParams []] }) ∧
    _read_calculations (⟨some [0, 0, 0, 0, 0, 0, 0, 0, 0, 0, 0, 0, 9], true, [], []⟩ : St) =
      (Except.ok (),
      { (⟨some [0, 0, 0, 0, 0, 0, 0, 0, 0, 0, 0, 0, 9], true, [], []⟩ : St) with
          reader := some [9],
          trace := [Event.sent [3004, 0], Event.parseCalcs []] }) := by
  have h := c8_zero_length_reads_empty
    (⟨some [0, 0, 0, 0, 0, 0, 0, 0, 9], true, [], []⟩ : St)
    (⟨some [0, 0, 0, 0, 0, 0, 0, 0, 0, 0, 0, 0, 9], true, [], []⟩ : St)
    0 0 0 [9] [9] (by decide) (by decide) (by decide) rfl rfl (by decide) (by decide)
  simpa using h

/-- C6: a read-only cycle never sends a frame whose command word is 3002;
in a write-then-read cycle the trace splits into a prefix holding only
`(3002, index, value)` frames (the write phase) and a remainder holding
no 3002 frame, and whenever the remainder is non-empty it starts with the
settle-delay sleep — so all queued 3002 frames precede the first 3003
frame and the settle delay sits between the write phase and the first
read. -/
theorem c6_write_frames_precede_reads_with_settle (st : St) (h : st.trace = []) :
    (∀ l, Event.sent l ∈ (_read_after_write false st).2.trace → l.head? ≠ some 3002) ∧
    (∃ T₁ T₂, (_read_after_write true st).2.trace = T₁ ++ T₂ ∧
      (∀ ev ∈ T₁, ∃ i v, ev = Event.sent [3002, i, v]) ∧
      (∀ l, Event.sent l ∈ T₂ → l.head? ≠ some 3002) ∧
      (T₂ = [] ∨ T₂.head? = some (Event.sleep WAIT_TIME_AFTER_PARAMETER_WRITE))) := by
  constructor
  · intro l hl
    have hro : _read_after_write false st = _read st := rfl
    rw [hro] at hl
    obtain ⟨t, ht, hall⟩ := _read_trace st
    rw [ht, h, List.nil_append] at hl
    rcases hall l hl with rfl | rfl <;> decide
  · have hrw : _read_after_write true st =
        match _write st with
        | (.error e, st) => (.error e, st)
        | (.ok _, st) =>
          _read { st with trace := st.trace ++ [Event.sleep WAIT_TIME_AFTER_PARAMETER_WRITE] } := rfl
    rw [hrw]
    obtain ⟨tw, htw, hallw⟩ := _write_trace st
    rw [h, List.nil_append] at htw
    split
    · rename_i e st₁ heq
      rw [heq] at htw
      exact ⟨tw, [], by simpa using htw, hallw, by simp, Or.inl rfl⟩
    · rename_i _u st₁ heq
      rw [heq] at htw
      obtain ⟨tr, htr, hallr⟩ :=
        _read_trace { st₁ with trace := st₁.trace ++ [Event.sleep WAIT_TIME_AFTER_PARAMETER_WRITE] }
      refine ⟨tw, Event.sleep WAIT_TIME_AFTER_PARAMETER_WRITE :: tr, ?_, hallw, ?_, Or.inr rfl⟩
      · rw [htr]
        show ({ st₁ with trace := st₁.trace ++ [Event.sleep WAIT_TIME_AFTER_PARAMETER_WRITE] } : St).trace
            ++ tr = _
        rw [htw]
        simp
      · intro l hl
        rcases List.mem_cons.mp hl with hsl | hmem
        · exact absurd hsl (by simp)
        · rcases hallr l hmem with rfl | rfl <;> decide

/-- C6 witness: the split exists at a concrete session (here one with no
connection and an empty queue, where the write phase trivially succeeds
and both reads fail fast, leaving only the settle delay in the
remainder). -/
theorem c6_witness :
    emptySt.trace = [] ∧
    ((∀ l, Event.sent l ∈ (_read_after_write false emptySt).2.trace → l.head? ≠ some 3002) ∧
    (∃ T₁ T₂, (_read_after_write true emptySt).2.trace = T₁ ++ T₂ ∧
      (∀ ev ∈ T₁, ∃ i v, ev = Event.sent [3002, i, v]) ∧
      (∀ l, Event.sent l ∈ T₂ → l.head? ≠ some 3002) ∧
      (T₂ = [] ∨ T₂.head? = some (Event.sleep WAIT_TIME_AFTER_PARAMETER_WRITE)))) :=
  ⟨rfl, c6_write_frames_precede_reads_with_settle emptySt rfl⟩

end Claims

end ALuxtronik
